import Mathlib

/-!
Verification of `rawalpindi_no_app_restaurants.py`.

Shallow embedding conventions:
* Python strings are Lean `String` (ASCII model: `strip`/`lower`/regex
  character classes are modelled over their ASCII behaviour).
* Python `None`-able values are `Option`.
* Python floats (coordinates, confidences) are modelled as `ℚ`; the
  `f"{x:.2f}"` formatting followed by `float(...)` re-parsing is modelled by
  exact quantisation to hundredths (`q2`).
* Network and HTML-library effects (`requests.post`/`requests.get`,
  `BeautifulSoup`, `urljoin`) are oracles passed in as explicit arguments.
-/

namespace RestaurantAudit

/-- Python truthiness of an optional string (`None` and `""` are falsy):
returns `some s` exactly when the value is a present, non-empty string. -/
def pyTruthy (o : Option String) : Option String :=
  match o with
  | none => none
  | some s => if s = "" then none else some s

/-- Python `a or b` on optional strings: `a` when `a` is truthy, else `b`. -/
def pyOrS (a b : Option String) : Option String :=
  match pyTruthy a with
  | some s => some s
  | none => b

/-- The `\s` class of Python regexes and of `str.strip`, over ASCII. -/
def isSpaceRe (c : Char) : Bool :=
  c = ' ' || c = '\t' || c = '\n' || c = '\r' || c = '\x0b' || c = '\x0c'

/-- `a.startswith(b)` on Python strings (character-list implementation so
that concrete runs reduce in the kernel). -/
def strStartsWithList : List Char → List Char → Bool
  | _, [] => true
  | [], _ :: _ => false
  | c :: cs, p :: ps => c = p && strStartsWithList cs ps

/-- `s.startswith(p)`. -/
def strStartsWith (s p : String) : Bool :=
  strStartsWithList s.data p.data

/-- `s.strip()`: remove leading and trailing whitespace. -/
def pyStrip (s : String) : String :=
  String.mk (((s.data.dropWhile isSpaceRe).reverse.dropWhile isSpaceRe).reverse)

/-- `s.lower()` (ASCII model). -/
def lowerStr (s : String) : String :=
  String.mk (s.data.map Char.toLower)

/-- `sep.join(parts)`. -/
def joinSep (sep : String) : List String → String
  | [] => ""
  | [x] => x
  | x :: xs => x ++ sep ++ joinSep sep xs

/-- Characters Python's `urllib.parse` allows after the first character of a
URL scheme: letters, digits, `+`, `-`, `.`. -/
def schemeChar (c : Char) : Bool :=
  c.isAlpha || c.isDigit || c = '+' || c = '-' || c = '.'

/-- Split `u` at the first `:` when the part before it is a valid scheme
(non-empty, starts with a letter, remaining characters in `schemeChar`);
returns the lower-cased scheme and the remainder after the colon.
Models the scheme detection of `urllib.parse.urlparse`. -/
def splitScheme (u : String) : Option (String × String) :=
  let cs := u.toList
  match cs.findIdx? (· = ':') with
  | none => none
  | some i =>
    let sch := cs.take i
    let rest := cs.drop (i + 1)
    match sch with
    | [] => none
    | c0 :: cs0 =>
      if c0.isAlpha && cs0.all schemeChar then
        some (String.mk (sch.map Char.toLower), String.mk rest)
      else none

/-- The `netloc` component of `urllib.parse.urlparse`: present only when
(after scheme removal) the remainder starts with `//`; it extends to the
next `/`, `?` or `#`. -/
def urlparse_netloc (u : String) : String :=
  let rest := match splitScheme u with
    | some p => p.2
    | none => u
  if strStartsWith rest "//" then
    String.mk ((rest.data.drop 2).takeWhile fun c => !(c = '/' || c = '?' || c = '#'))
  else ""

/-- The scheme component of `urllib.parse.urlparse` (empty when absent). -/
def urlparse_scheme (u : String) : String :=
  match splitScheme u with
  | some p => p.1
  | none => ""

/-- `normalize_url` (source lines 42–58): trim whitespace; prefix
`"https://"` when the trimmed string does not start with `"http://"` or
`"https://"`; accept only when the parse has scheme http/https and a
non-empty netloc. `none` models Python's `None` return. -/
def normalize_url (url : String) : Option String :=
  if url = "" then none
  else
    let url := pyStrip url
    if url = "" then none
    else
      let url := if strStartsWith url "http://" || strStartsWith url "https://" then url
                 else "https://" ++ url
      if !(urlparse_scheme url = "http" || urlparse_scheme url = "https") then none
      else if urlparse_netloc url = "" then none
      else some url

/-- Bounding box `(south, west, north, east)`, the tuple order used by the
source's `RAWALPINDI_BBOX` and `tile_bbox`. -/
structure BBox where
  south : ℚ
  west : ℚ
  north : ℚ
  east : ℚ
deriving Repr, DecidableEq

/-- The tile produced for grid cell `(r, c)` inside `tile_bbox` (the tuple
`(ts, tw, tn, te)` appended at source lines 68–72). -/
def tileOf (b : BBox) (rows cols : ℕ) (r c : ℕ) : BBox :=
  let lat_step := (b.north - b.south) / rows
  let lon_step := (b.east - b.west) / cols
  { south := b.south + r * lat_step
    west := b.west + c * lon_step
    north := b.south + (r + 1) * lat_step
    east := b.west + (c + 1) * lon_step }

/-- `tile_bbox` (source lines 61–73): row-major grid of `rows × cols`
sub-boxes (outer loop over rows, inner over columns). -/
def tile_bbox (b : BBox) (rows cols : ℕ) : List BBox :=
  (List.range rows).flatMap fun r => (List.range cols).map fun c => tileOf b rows cols r c

/-- Closed-range membership of a point in a box. -/
def inBBox (b : BBox) (la lo : ℚ) : Prop :=
  b.south ≤ la ∧ la ≤ b.north ∧ b.west ≤ lo ∧ lo ≤ b.east

/-- Open-interior membership of a point in a box. -/
def inOpenBBox (b : BBox) (la lo : ℚ) : Prop :=
  b.south < la ∧ la < b.north ∧ b.west < lo ∧ lo < b.east

/-- Outcome of one `requests.post` call inside `overpass_post_with_retries`:
`ok body` is a 200 response whose body `r.json()` decodes to `body`;
`httpErr st` is a response with status ≠ 200; `exc ename emsg` is a raised
`requests.RequestException` with class name `ename` and message `emsg`. -/
inductive FetchOutcome (α : Type) where
  | ok (body : α)
  | httpErr (status : ℕ)
  | exc (ename emsg : String)
deriving Repr, DecidableEq

/-- The `last_err` string recorded at source lines 104 and 106 for a failed
attempt against `endpoint` (`none` for a success, which records nothing). -/
def errDetail (endpoint : String) (f : FetchOutcome α) : Option String :=
  match f with
  | .ok _ => none
  | .httpErr st => some (endpoint ++ " HTTP " ++ toString st)
  | .exc n m => some (endpoint ++ " " ++ n ++ ": " ++ m)

/-- Whether the oracle answers 200-with-body for a given (endpoint, attempt). -/
def isOkAt (oracle : String → ℕ → FetchOutcome α) (p : String × ℕ) : Bool :=
  match oracle p.1 p.2 with
  | .ok _ => true
  | _ => false

/-- Python's rendering of `last_err` inside the final f-string: `None` when
no attempt was made, otherwise the recorded string. -/
def pyOptStr (o : Option String) : String :=
  match o with
  | none => "None"
  | some s => s

/-- Inner attempt loop of `overpass_post_with_retries` (source lines 93–110)
for one endpoint: walks the remaining attempt numbers, returning
(result, updated `last_err`, attempts actually issued, sleeps performed).
On a 200 it returns at once with the body; on any failure it records the
error detail, sleeps `2 ^ attempt` seconds, and retries. -/
def attemptRun (oracle : String → ℕ → FetchOutcome α) (endpoint : String) :
    List ℕ → Option String → Option α × Option String × List (String × ℕ) × List ℕ
  | [], lastErr => (none, lastErr, [], [])
  | a :: as, lastErr =>
    match oracle endpoint a with
    | .ok b => (some b, lastErr, [(endpoint, a)], [])
    | f =>
      let rest := attemptRun oracle endpoint as (errDetail endpoint f)
      (rest.1, rest.2.1, (endpoint, a) :: rest.2.2.1, 2 ^ a :: rest.2.2.2)

/-- Outer endpoint loop of `overpass_post_with_retries` (source line 92):
tries each mirror in priority order, threading `last_err` across mirrors. -/
def endpointRun (oracle : String → ℕ → FetchOutcome α) :
    List String → List ℕ → Option String → Option α × Option String × List (String × ℕ) × List ℕ
  | [], _, lastErr => (none, lastErr, [], [])
  | ep :: eps, attempts, lastErr =>
    let this := attemptRun oracle ep attempts lastErr
    match this.1 with
    | some b => (some b, this.2.1, this.2.2.1, this.2.2.2)
    | none =>
      let rest := endpointRun oracle eps attempts this.2.1
      (rest.1, rest.2.1, this.2.2.1 ++ rest.2.2.1, this.2.2.2 ++ rest.2.2.2)

/-- `overpass_post_with_retries` (source lines 89–112). The oracle stands
for the network: it answers each (endpoint, attempt-number) pair. Returns
the `Except` result (`.error` models the final `RuntimeError`), the list of
(endpoint, attempt) calls issued, and the list of sleep durations. -/
def overpass_post_with_retries (oracle : String → ℕ → FetchOutcome α)
    (endpoints : List String) (max_attempts : ℕ) :
    Except String α × List (String × ℕ) × List ℕ :=
  let attempts := (List.range max_attempts).map (· + 1)
  let run := endpointRun oracle endpoints attempts none
  (match run.1 with
   | some b => .ok b
   | none => .error ("Overpass failed after retries. Last error: " ++ pyOptStr run.2.1),
   run.2.2.1, run.2.2.2)

/-- The full (endpoint, attempt) schedule the retry loop may consult, in
order: each endpoint in priority order, attempts `1..max_attempts`. -/
def retrySchedule (endpoints : List String) (max_attempts : ℕ) : List (String × ℕ) :=
  endpoints.flatMap fun ep => ((List.range max_attempts).map (· + 1)).map fun a => (ep, a)

/-- Generic first-seen deduplication with an explicit seen-set, the shape of
the `if key in seen: continue / seen.add(key) / append` loops at source
lines 126–131 and 256–260. Returns the kept elements and the final seen
list. -/
def dedupeState (key : α → κ) [DecidableEq κ] :
    List α → List κ → List α × List κ
  | [], seen => ([], seen)
  | x :: xs, seen =>
    if key x ∈ seen then dedupeState key xs seen
    else
      let rest := dedupeState key xs (key x :: seen)
      (x :: rest.1, rest.2)

/-- The kept-elements component of `dedupeState`. -/
def dedupeLoop (key : α → κ) [DecidableEq κ] (l : List α) (seen : List κ) : List α :=
  (dedupeState key l seen).1

/-- The `center` sub-object of an Overpass element (`{"lat": …, "lon": …}`,
either key possibly missing). -/
structure Center where
  clat : Option ℚ
  clon : Option ℚ
deriving Repr, DecidableEq

/-- A raw Overpass element as consumed by `main`: every field is read with
`el.get(...)`, so each may be absent. `tags` is an association list
standing for the JSON tags object (keys unique; lookup takes the first). -/
structure OSMElement where
  osmType : Option String
  osmId : Option ℤ
  lat : Option ℚ
  lon : Option ℚ
  center : Option Center
  tags : Option (List (String × String))
deriving Repr, DecidableEq

/-- `tags.get(k)`: first value bound to `k`, `none` when `k` is absent. -/
def tagsGet (ts : List (String × String)) (k : String) : Option String :=
  (ts.find? fun p => p.1 = k).map (·.2)

/-- Identity key `(el.get("type"), el.get("id"))` used by the cross-tile
deduplication at source line 127. -/
def elKey (el : OSMElement) : Option String × Option ℤ :=
  (el.osmType, el.osmId)

/-- The inner per-tile body of `overpass_fetch_restaurants_tiled` (source
lines 126–131) fused over the whole tile list: one seen-set and one output
list are threaded across all tiles. -/
def overpassCollectLoop : List (List OSMElement) → List (Option String × Option ℤ) → List OSMElement
  | [], _ => []
  | tile :: rest, seen =>
    let this := dedupeState elKey tile seen
    this.1 ++ overpassCollectLoop rest this.2

/-- Element-level result of `overpass_fetch_restaurants_tiled` (source lines
115–138), with the network abstracted to the per-tile element lists it
returned: concatenate tiles in fetch order, dropping re-fetched
`(type, id)` duplicates, first seen wins. -/
def overpass_fetch_restaurants_tiled (tileElements : List (List OSMElement)) : List OSMElement :=
  overpassCollectLoop tileElements []

/-- `extract_address` (source lines 141–147): the truthy values of the four
address-fragment tags, in fixed order, joined by `", "`. -/
def extract_address (ts : List (String × String)) : String :=
  joinSep ", "
    (["addr:housenumber", "addr:street", "addr:suburb", "addr:city"].filterMap
      fun k => pyTruthy (tagsGet ts k))

/-- A canonical restaurant record (the dict built at source lines 262–272).
`lat`/`lon` keep `Option` for the `""`-when-absent CSV sentinel; `osm_id`
likewise. -/
structure Restaurant where
  name : String
  address : String
  phone : String
  website : String
  lat : Option ℚ
  lon : Option ℚ
  source : String
  osm_type : String
  osm_id : Option ℤ
deriving Repr, DecidableEq

/-- The per-element body of the normalization loop in `main` (source lines
238–272): `none` when the element is skipped (no truthy `name` tag),
otherwise the restaurant record, before deduplication. -/
def normalizeElement (el : OSMElement) : Option Restaurant :=
  let ts := el.tags.getD []
  match pyTruthy (tagsGet ts "name") with
  | none => none
  | some name =>
    let websiteRaw := pyOrS (tagsGet ts "website") (pyOrS (tagsGet ts "contact:website") (tagsGet ts "url"))
    let website := match pyTruthy websiteRaw with
      | some w => normalize_url w
      | none => none
    let phone := (pyOrS (tagsGet ts "phone") (tagsGet ts "contact:phone")).getD ""
    let coords := match el.lat, el.lon with
      | some la, some lo => (some la, some lo)
      | _, _ =>
        let c := el.center.getD ⟨none, none⟩
        (c.clat, c.clon)
    some { name := name
           address := extract_address ts
           phone := phone
           website := website.getD ""
           lat := coords.1
           lon := coords.2
           source := "OSM/Overpass"
           osm_type := el.osmType.getD ""
           osm_id := el.osmId }

/-- Round half to even (banker's rounding), the tie rule of Python's
built-in `round`. -/
def round_half_even (x : ℚ) : ℤ :=
  let f := ⌊x⌋
  let r := x - f
  if r < 1 / 2 then f
  else if 1 / 2 < r then f + 1
  else if f % 2 = 0 then f else f + 1

/-- `round(x, 4)` scaled by `10^4`: the integer of ten-thousandths the
Python float key component denotes. -/
def round4 (x : ℚ) : ℤ :=
  round_half_even (x * 10000)

/-- `dedupe_key` (source lines 220–225). The Python function renders the key
as a string `n|w|lat4|lon4` (or `n|w|no_coords`); the embedding keeps the
components structured, with `none` as the `no_coords` sentinel: the two
renderings identify the same pairs of records. -/
def dedupe_key (name website : String) (lat lon : Option ℚ) :
    String × String × Option (ℤ × ℤ) :=
  let n := lowerStr (pyStrip name)
  let w := lowerStr (pyStrip website)
  match lat, lon with
  | some la, some lo => (n, w, some (round4 la, round4 lo))
  | _, _ => (n, w, none)

/-- The dedup key of a normalized restaurant, as computed at source line
257 (`dedupe_key(name, website or "", lat, lon)`). -/
def restaurantKey (r : Restaurant) : String × String × Option (ℤ × ℤ) :=
  dedupe_key r.name r.website r.lat r.lon

/-- The normalization-plus-dedup loop of `main` (source lines 238–272),
with the seen-set explicit: skipped elements produce nothing; a normalized
record is kept only when its `dedupe_key` is new. -/
def buildRestaurantsLoop : List OSMElement → List (String × String × Option (ℤ × ℤ)) → List Restaurant
  | [], _ => []
  | el :: rest, seen =>
    match normalizeElement el with
    | none => buildRestaurantsLoop rest seen
    | some r =>
      if restaurantKey r ∈ seen then buildRestaurantsLoop rest seen
      else r :: buildRestaurantsLoop rest (restaurantKey r :: seen)

/-- The deduplicated restaurant list `main` accumulates before the audit
stage. -/
def build_restaurants (els : List OSMElement) : List Restaurant :=
  buildRestaurantsLoop els []

/-- Case-insensitive literal match at the start of `cs`: `some rest` when
`cs` begins with `lit` (comparing lower-cased characters), with `rest` the
remainder. Models a literal run inside a `re.I` pattern. -/
def litAt : List Char → List Char → Option (List Char)
  | [], cs => some cs
  | _ :: _, [] => none
  | p :: ps, c :: cs => if c.toLower = p.toLower then litAt ps cs else none

/-- The character class `[A-Za-z0-9._]` of `PLAYSTORE_RE`'s `id=` tail. -/
def playIdChar (c : Char) : Bool :=
  ('A' ≤ c && c ≤ 'Z') || ('a' ≤ c && c ≤ 'z') || ('0' ≤ c && c ≤ '9') || c = '.' || c = '_'

/-- Match of `PLAYSTORE_RE` anchored at the current position: `https?://`
then the Play-Store detail-page path literal, `id=` and at least one
`[A-Za-z0-9._]` character (the two alternatives are the expansions of the
optional `s`). -/
def playAt (cs : List Char) : Bool :=
  let tail := fun (rest : List Char) =>
    match rest with
    | c :: _ => playIdChar c
    | [] => false
  match litAt "https://play.google.com/store/apps/details?id=".toList cs with
  | some rest => tail rest
  | none =>
    match litAt "http://play.google.com/store/apps/details?id=".toList cs with
    | some rest => tail rest
    | none => false

/-- Match of `APPLE_APPS_RE` (`https?://apps\.apple\.com/`, `re.I`) anchored
at the current position. -/
def appleAt (cs : List Char) : Bool :=
  (litAt "https://apps.apple.com/".toList cs).isSome
    || (litAt "http://apps.apple.com/".toList cs).isSome

/-- Unanchored search (`re.search`): does `p` match at some position? -/
def searchAny (p : List Char → Bool) : List Char → Bool
  | [] => p []
  | c :: rest => p (c :: rest) || searchAny p rest

/-- `PLAYSTORE_RE.search` on a string. -/
def playSearch (s : String) : Bool :=
  searchAny playAt s.toList

/-- `APPLE_APPS_RE.search` on a string. -/
def appleSearch (s : String) : Bool :=
  searchAny appleAt s.toList

/-- The `\w` class of Python regexes, over ASCII (used for `\b`). -/
def isWordChar (c : Char) : Bool :=
  c.isAlpha || c.isDigit || c = '_'

/-- Word boundary after a match: next character absent or a non-word one. -/
def boundaryAfter (cs : List Char) : Bool :=
  match cs with
  | [] => true
  | c :: _ => !isWordChar c

/-- Continue a phrase pattern: for each remaining word, require `\s+` (one
or more `\s`, taken greedily — equivalent here since every word starts
with a letter) and then the word; after the last word require `\b`. -/
def phraseTail : List String → List Char → Bool
  | [], cs => boundaryAfter cs
  | w :: ws, cs =>
    match cs with
    | [] => false
    | c :: rest =>
      isSpaceRe c &&
        (match litAt w.toList (rest.dropWhile isSpaceRe) with
         | some cs2 => phraseTail ws cs2
         | none => false)

/-- A whole phrase alternative (first word then `phraseTail`) anchored at
the current position. -/
def phraseAt (w : String) (ws : List String) (cs : List Char) : Bool :=
  match litAt w.toList cs with
  | some cs2 => phraseTail ws cs2
  | none => false

/-- The alternation of `APP_TEXT_HINT_RE` anchored at the current position
(`download\s+our\s+app|get\s+the\s+app|our\s+app`, with the trailing `\b`). -/
def hintAt (cs : List Char) : Bool :=
  phraseAt "download" ["our", "app"] cs
    || phraseAt "get" ["the", "app"] cs
    || phraseAt "our" ["app"] cs

/-- Search loop for `APP_TEXT_HINT_RE` tracking the `\b` on the left: a
match may start only where the previous character is absent or non-word. -/
def hintSearchAux : Bool → List Char → Bool
  | prevWord, cs =>
    (!prevWord && hintAt cs)
      || match cs with
         | [] => false
         | c :: rest => hintSearchAux (isWordChar c) rest

/-- `APP_TEXT_HINT_RE.search` on a string. -/
def app_text_hint (s : String) : Bool :=
  hintSearchAux false s.toList

/-- The result dict of `scrape_website_for_app_links` (source lines
151–158). -/
structure ScrapeResult where
  has_android_app : Bool
  has_ios_app : Bool
  evidence_android_url : Option String
  evidence_ios_url : Option String
  notes : String
  confidence : ℚ
deriving Repr, DecidableEq

/-- The freshly-initialised result dict. -/
def emptyResult : ScrapeResult :=
  { has_android_app := false
    has_ios_app := false
    evidence_android_url := none
    evidence_ios_url := none
    notes := ""
    confidence := 0 }

/-- What `BeautifulSoup` extraction delivered for a fetched page: either
the raw `a[href]` attribute values together with the visible text, or a
raised exception (class name) — the `except Exception` arm. -/
inductive PageParse where
  | parsed (rawHrefs : List String) (text : String)
  | exc (ename : String)
deriving Repr, DecidableEq

/-- Outcome of the `requests.get` in the classifier: a raised
`requests.RequestException` (class name), or a response with final
(post-redirect) URL, status code, and its parse outcome. -/
inductive HttpGet where
  | exc (ename : String)
  | resp (status : ℕ) (finalUrl : String) (page : PageParse)
deriving Repr, DecidableEq

/-- The resolved href list of source lines 180–184: strip each raw href,
drop empty ones, resolve the rest against the final page URL with
`urljoin` (passed in as an oracle for the library function). -/
def resolvedHrefs (urljoin : String → String → String) (finalUrl : String)
    (rawHrefs : List String) : List String :=
  ((rawHrefs.map pyStrip).filter fun h => h ≠ "").map (urljoin finalUrl)

/-- The successful-parse classification of source lines 180–208: first
store-link evidence wins (confidence 0.95); otherwise a text hint gives
0.6; otherwise 0.85. -/
def classifyParsed (urljoin : String → String → String) (finalUrl : String)
    (rawHrefs : List String) (text : String) : ScrapeResult :=
  let hrefs := resolvedHrefs urljoin finalUrl rawHrefs
  let play := hrefs.find? playSearch
  let apple := hrefs.find? appleSearch
  if play.isSome || apple.isSome then
    { has_android_app := play.isSome
      has_ios_app := apple.isSome
      evidence_android_url := play
      evidence_ios_url := apple
      notes := "store_link_found_on_website"
      confidence := 95 / 100 }
  else if app_text_hint text then
    { emptyResult with notes := "app_text_hint_but_no_store_link", confidence := 6 / 10 }
  else
    { emptyResult with notes := "no_store_links_found_on_homepage", confidence := 85 / 100 }

/-- `scrape_website_for_app_links` (source lines 150–217). `urljoin` and
`httpGet` are the library/network oracles. Always returns a verdict — the
Python `try`/`except` arms become the `exc` cases of the oracles. -/
def scrape_website_for_app_links (urljoin : String → String → String)
    (httpGet : String → HttpGet) (website_url : String) : ScrapeResult :=
  match normalize_url website_url with
  | none => { emptyResult with notes := "invalid_website_url", confidence := 1 / 10 }
  | some url =>
    match httpGet url with
    | .exc n => { emptyResult with notes := "request_error:" ++ n, confidence := 2 / 10 }
    | .resp status finalUrl page =>
      if 400 ≤ status then
        { emptyResult with notes := "http_" ++ toString status, confidence := 2 / 10 }
      else
        match page with
        | .exc n => { emptyResult with notes := "parse_error:" ++ n, confidence := 2 / 10 }
        | .parsed rawHrefs text => classifyParsed urljoin finalUrl rawHrefs text

/-- The synthetic verdict for a restaurant with no website (source lines
280–287). -/
def no_website_verdict : ScrapeResult :=
  { has_android_app := false
    has_ios_app := false
    evidence_android_url := none
    evidence_ios_url := none
    notes := "no_website_in_osm"
    confidence := 2 / 10 }

/-- Quantisation to hundredths: the value denoted by the two-decimal string
`f"{x:.2f}"` once the no-app filter re-parses it with `float(...)`. All
confidences the classifier produces are exact hundredths, where this is the
identity. -/
def q2 (x : ℚ) : ℚ :=
  (round (x * 100) : ℤ) / 100

/-- The two-decimal rendering `f"{x:.2f}"` for the non-negative exact
hundredths the pipeline produces. -/
def fmt2 (x : ℚ) : String :=
  let m := (round (x * 100) : ℤ).toNat
  let frac := m % 100
  toString (m / 100) ++ "." ++ (if frac < 10 then "0" else "") ++ toString frac

/-- An output row of the audit CSV (the dict built at source lines
291–300): the restaurant fields plus the flattened verdict. `confidence`
holds the value of the two-decimal string the row carries. -/
structure AuditRow where
  name : String
  address : String
  phone : String
  website : String
  lat : Option ℚ
  lon : Option ℚ
  source : String
  osm_type : String
  osm_id : Option ℤ
  has_android_app : ℕ
  has_ios_app : ℕ
  has_any_app : ℕ
  evidence_android_url : String
  evidence_ios_url : String
  notes : String
  confidence : ℚ
deriving Repr, DecidableEq

/-- The per-restaurant body of the audit loop (source lines 275–300):
classify the website when present, else use the fixed no-website verdict;
flatten booleans to 0/1 and optional evidence URLs to strings. -/
def build_audit_row (urljoin : String → String → String) (httpGet : String → HttpGet)
    (r : Restaurant) : AuditRow :=
  let appinfo := if r.website ≠ "" then scrape_website_for_app_links urljoin httpGet r.website
                 else no_website_verdict
  let has_any_app := appinfo.has_android_app || appinfo.has_ios_app
  { name := r.name
    address := r.address
    phone := r.phone
    website := r.website
    lat := r.lat
    lon := r.lon
    source := r.source
    osm_type := r.osm_type
    osm_id := r.osm_id
    has_android_app := if appinfo.has_android_app then 1 else 0
    has_ios_app := if appinfo.has_ios_app then 1 else 0
    has_any_app := if has_any_app then 1 else 0
    evidence_android_url := appinfo.evidence_android_url.getD ""
    evidence_ios_url := appinfo.evidence_ios_url.getD ""
    notes := appinfo.notes
    confidence := q2 appinfo.confidence }

/-- The full audit row list (source lines 274–300). -/
def audit_rows (urljoin : String → String → String) (httpGet : String → HttpGet)
    (rs : List Restaurant) : List AuditRow :=
  rs.map (build_audit_row urljoin httpGet)

/-- `NO_APP_CONF_THRESHOLD` (source line 312). -/
def NO_APP_CONF_THRESHOLD : ℚ := 80 / 100

/-- The no-app filter predicate of source lines 313–319: truthy website,
`has_any_app == 0`, parsed confidence at or above the threshold, and one of
the two negative-evidence notes codes. -/
def noAppPred (row : AuditRow) : Bool :=
  row.website ≠ ""
    && row.has_any_app == 0
    && NO_APP_CONF_THRESHOLD ≤ row.confidence
    && (row.notes == "no_store_links_found_on_homepage"
        || row.notes == "app_text_hint_but_no_store_link")

/-- The no-app subset of a list of audit rows (source lines 313–319). -/
def no_app_filter (rows : List AuditRow) : List AuditRow :=
  rows.filter noAppPred

/-- The no-app rows the pipeline emits for a given restaurant list. -/
def no_app_rows (urljoin : String → String → String) (httpGet : String → HttpGet)
    (rs : List Restaurant) : List AuditRow :=
  no_app_filter (audit_rows urljoin httpGet rs)

/-- The dedup key of an audit row, with the fields the row carries — the
same fields `main` keyed the underlying restaurant on. -/
def auditRowKey (row : AuditRow) : String × String × Option (ℤ × ℤ) :=
  dedupe_key row.name row.website row.lat row.lon

/-- Linear rendering of the two-level retry loop: one pass over the flat
(endpoint, attempt) schedule, threading `last_err`. Proven equal to
`endpointRun` below; used to state and prove the retry properties. -/
def schedState (oracle : String → ℕ → FetchOutcome α) :
    List (String × ℕ) → Option String → Option α × Option String × List (String × ℕ) × List ℕ
  | [], lastErr => (none, lastErr, [], [])
  | p :: ps, lastErr =>
    match oracle p.1 p.2 with
    | .ok b => (some b, lastErr, [p], [])
    | f =>
      let rest := schedState oracle ps (errDetail p.1 f)
      (rest.1, rest.2.1, p :: rest.2.2.1, 2 ^ p.2 :: rest.2.2.2)

/-- The error detail of the last schedule entry (what `last_err` holds when
every attempt has failed), `none` for an empty schedule. -/
def lastDetail (oracle : String → ℕ → FetchOutcome α) (sched : List (String × ℕ)) :
    Option String :=
  match sched.getLast? with
  | none => none
  | some p => errDetail p.1 (oracle p.1 p.2)

/-- Modelled from the spec (§4.4 Record Normalizer, amended): the first
key among `ks` whose tag value is present and non-empty. -/
def firstNonEmptyTag (ts : List (String × String)) : List String → Option String
  | [] => none
  | k :: ks =>
    match tagsGet ts k with
    | some v => if v = "" then firstNonEmptyTag ts ks else some v
    | none => firstNonEmptyTag ts ks

/-- Modelled from the spec (§4.4, amended): the present, non-empty address
fragments in fixed order, joined by `", "`. -/
def specAddress (ts : List (String × String)) : String :=
  joinSep ", "
    (((["addr:housenumber", "addr:street", "addr:suburb", "addr:city"].filterMap
        (tagsGet ts)).filter fun v => v ≠ ""))

/-- Modelled from the spec (§4.4 Record Normalizer, amended wording):
zero records when the name tag is absent or empty; otherwise one record
with the fields as the amended claim describes them. Compared against the
code-derived `normalizeElement`. -/
def specNormalize (el : OSMElement) : Option Restaurant :=
  let ts := el.tags.getD []
  match tagsGet ts "name" with
  | none => none
  | some n =>
    if n = "" then none
    else
      some { name := n
             address := specAddress ts
             phone := (firstNonEmptyTag ts ["phone", "contact:phone"]).getD ""
             website := ((firstNonEmptyTag ts ["website", "contact:website", "url"]).bind
               normalize_url).getD ""
             lat := match el.lat, el.lon with
               | some la, some _ => some la
               | _, _ => (el.center.getD ⟨none, none⟩).clat
             lon := match el.lat, el.lon with
               | some _, some lo => some lo
               | _, _ => (el.center.getD ⟨none, none⟩).clon
             source := "OSM/Overpass"
             osm_type := el.osmType.getD ""
             osm_id := el.osmId }

/-- `RAWALPINDI_BBOX` (source line 14): `(33.55, 73.00, 33.70, 73.15)`. -/
def RAWALPINDI_BBOX : BBox :=
  { south := 3355 / 100, west := 73, north := 337 / 10, east := 7315 / 100 }

/-- `TILE_ROWS` (source line 27). -/
def TILE_ROWS : ℕ := 3

/-- `TILE_COLS` (source line 28). -/
def TILE_COLS : ℕ := 3

/-- `OVERPASS_ENDPOINTS` (source lines 17–21). -/
def OVERPASS_ENDPOINTS : List String :=
  ["https://overpass-api.de/api/interpreter",
   "https://overpass.kumi.systems/api/interpreter",
   "https://overpass.nchc.org.tw/api/interpreter"]

/-- A sample node element (used by concrete witnesses; kept
coordinate-free so concrete runs stay in decidable string territory). -/
def sampleNode1 : OSMElement :=
  { osmType := some "node"
    osmId := some 11
    lat := none
    lon := none
    center := none
    tags := some [("name", "Alpha Grill"), ("website", "alpha.example")] }

/-- A second sample element with a different identity (used by witnesses). -/
def sampleNode2 : OSMElement :=
  { osmType := some "way"
    osmId := some 22
    lat := none
    lon := none
    center := none
    tags := some [("name", "Beta Diner")] }

/-- The spec's example element: `{"type":"node","id":1,"lat":33.6,
"lon":73.05,"tags":{"name":"Cafe X","website":"cafex.com"}}`. -/
def cafeXElement : OSMElement :=
  { osmType := some "node"
    osmId := some 1
    lat := some (336 / 10)
    lon := some (7305 / 100)
    center := none
    tags := some [("name", "Cafe X"), ("website", "cafex.com")] }

/-- An element whose `name` tag is present but empty (counterexample input
for the normalizer claim). -/
def emptyNameElement : OSMElement :=
  { osmType := some "node"
    osmId := some 2
    lat := some (336 / 10)
    lon := some (7305 / 100)
    center := none
    tags := some [("name", "")] }

/-- A sample audit row passing the no-app filter (used by witnesses). -/
def sampleNoAppRow : AuditRow :=
  { name := "Alpha Grill"
    address := ""
    phone := ""
    website := "https://alpha.example"
    lat := none
    lon := none
    source := "OSM/Overpass"
    osm_type := "node"
    osm_id := some 11
    has_android_app := 0
    has_ios_app := 0
    has_any_app := 0
    evidence_android_url := ""
    evidence_ios_url := ""
    notes := "no_store_links_found_on_homepage"
    confidence := 85 / 100 }

/-- A sample audit row failing the no-app filter (empty website). -/
def sampleNoWebsiteRow : AuditRow :=
  { sampleNoAppRow with
    website := ""
    notes := "no_website_in_osm"
    confidence := 2 / 10 }

/-- A sample restaurant with a website (used by concrete witnesses). -/
def sampleRestaurant : Restaurant :=
  { name := "Alpha Grill"
    address := ""
    phone := ""
    website := "https://alpha.example"
    lat := none
    lon := none
    source := "OSM/Overpass"
    osm_type := "node"
    osm_id := some 11 }

/-- A website-fetch oracle answering every URL with a clean 200 homepage
with no anchors and neutral text (used by witnesses). -/
def plainPageGet : String → HttpGet :=
  fun _ => .resp 200 "https://alpha.example/" (.parsed [] "welcome to our restaurant")

/-- A trivial urljoin oracle: returns the href unchanged (used by
witnesses). -/
def idJoin : String → String → String :=
  fun _ h => h

section DedupeLemmas

variable {α : Type _} {κ : Type _} [DecidableEq κ] (key : α → κ)

theorem mem_dedupeState_not_seen :
    ∀ (l : List α) (seen : List κ) (y : α), y ∈ (dedupeState key l seen).1 → key y ∉ seen := by
  intro l
  induction l with
  | nil => intro seen y h; simp [dedupeState] at h
  | cons x xs ih =>
    intro seen y h
    by_cases hx : key x ∈ seen
    · simp only [dedupeState, if_pos hx] at h
      exact ih seen y h
    · simp only [dedupeState, if_neg hx, List.mem_cons] at h
      rcases h with rfl | h
      · exact hx
      · intro hmem
        exact ih (key x :: seen) y h (List.mem_cons_of_mem _ hmem)

theorem dedupeState_nodup_keys :
    ∀ (l : List α) (seen : List κ), (((dedupeState key l seen).1).map key).Nodup := by
  intro l
  induction l with
  | nil => intro seen; simp [dedupeState]
  | cons x xs ih =>
    intro seen
    by_cases hx : key x ∈ seen
    · simp only [dedupeState, if_pos hx]
      exact ih seen
    · simp only [dedupeState, if_neg hx, List.map_cons, List.nodup_cons]
      refine ⟨?_, ih (key x :: seen)⟩
      intro hmem
      rcases List.mem_map.1 hmem with ⟨y, hy, hky⟩
      exact mem_dedupeState_not_seen key xs (key x :: seen) y hy (hky ▸ List.mem_cons_self _ _)

theorem dedupeState_sublist :
    ∀ (l : List α) (seen : List κ), (dedupeState key l seen).1.Sublist l := by
  intro l
  induction l with
  | nil => intro seen; simp [dedupeState]
  | cons x xs ih =>
    intro seen
    by_cases hx : key x ∈ seen
    · simp only [dedupeState, if_pos hx]
      exact (ih seen).cons x
    · simp only [dedupeState, if_neg hx]
      exact (ih (key x :: seen)).cons₂ x

theorem dedupeState_key_covered :
    ∀ (l : List α) (seen : List κ) (x : α), x ∈ l → key x ∉ seen →
      key x ∈ ((dedupeState key l seen).1).map key := by
  intro l
  induction l with
  | nil => intro seen x h; simp at h
  | cons z xs ih =>
    intro seen x hx hns
    by_cases hz : key z ∈ seen
    · simp only [dedupeState, if_pos hz]
      rcases List.mem_cons.1 hx with rfl | hx
      · exact absurd hz hns
      · exact ih seen x hx hns
    · simp only [dedupeState, if_neg hz, List.map_cons, List.mem_cons]
      rcases List.mem_cons.1 hx with rfl | hx
      · exact Or.inl rfl
      · by_cases hkz : key x = key z
        · exact Or.inl hkz
        · exact Or.inr (ih (key z :: seen) x hx (by simp [hkz, hns]))

theorem dedupeState_first_seen :
    ∀ (l : List α) (seen : List κ) (y : α), y ∈ (dedupeState key l seen).1 →
      l.find? (fun z => key z = key y) = some y := by
  intro l
  induction l with
  | nil => intro seen y h; simp [dedupeState] at h
  | cons x xs ih =>
    intro seen y hy
    by_cases hx : key x ∈ seen
    · simp only [dedupeState, if_pos hx] at hy
      have hne : key x ≠ key y := by
        intro he
        exact mem_dedupeState_not_seen key xs seen y hy (he ▸ hx)
      rw [List.find?_cons_of_neg _ (by simpa using hne)]
      exact ih seen y hy
    · simp only [dedupeState, if_neg hx, List.mem_cons] at hy
      rcases hy with rfl | hy
      · exact List.find?_cons_of_pos _ (by simp)
      · have hne : key x ≠ key y := by
          intro he
          exact mem_dedupeState_not_seen key xs (key x :: seen) y hy
            (he ▸ List.mem_cons_self _ _)
        rw [List.find?_cons_of_neg _ (by simpa using hne)]
        exact ih (key x :: seen) y hy

theorem dedupeState_append (xs ys : List α) (seen : List κ) :
    dedupeState key (xs ++ ys) seen =
      ((dedupeState key xs seen).1 ++ (dedupeState key ys (dedupeState key xs seen).2).1,
       (dedupeState key ys (dedupeState key xs seen).2).2) := by
  induction xs generalizing seen with
  | nil => simp [dedupeState]
  | cons x xs ih =>
    by_cases hx : key x ∈ seen
    · simp only [List.cons_append, dedupeState, if_pos hx]
      exact ih seen
    · simp only [List.cons_append, dedupeState, if_neg hx, List.append_eq]
      rw [ih (key x :: seen)]

end DedupeLemmas

theorem overpassCollectLoop_eq_dedupeState (tiles : List (List OSMElement))
    (seen : List (Option String × Option ℤ)) :
    overpassCollectLoop tiles seen = (dedupeState elKey tiles.flatten seen).1 := by
  induction tiles generalizing seen with
  | nil => simp [overpassCollectLoop, dedupeState]
  | cons t ts ih =>
    simp only [overpassCollectLoop, List.flatten_cons, dedupeState_append]
    rw [ih]

theorem buildRestaurantsLoop_eq_dedupeState (els : List OSMElement)
    (seen : List (String × String × Option (ℤ × ℤ))) :
    buildRestaurantsLoop els seen =
      (dedupeState restaurantKey (els.filterMap normalizeElement) seen).1 := by
  induction els generalizing seen with
  | nil => simp [buildRestaurantsLoop, dedupeState]
  | cons el els ih =>
    cases hn : normalizeElement el with
    | none => simp only [buildRestaurantsLoop, hn, List.filterMap_cons_none hn]; exact ih seen
    | some r =>
      simp only [buildRestaurantsLoop, hn, List.filterMap_cons_some hn]
      by_cases hk : restaurantKey r ∈ seen
      · simp only [if_pos hk, dedupeState, if_pos hk]
        exact ih seen
      · simp only [if_neg hk, dedupeState, if_neg hk]
        rw [ih (restaurantKey r :: seen)]

theorem noAppPred_iff (row : AuditRow) :
    noAppPred row = true ↔
      (row.website ≠ "" ∧ row.has_any_app = 0 ∧ NO_APP_CONF_THRESHOLD ≤ row.confidence ∧
        (row.notes = "no_store_links_found_on_homepage" ∨
         row.notes = "app_text_hint_but_no_store_link")) := by
  simp [noAppPred, and_assoc]

/-- C1: a row of the input appears in the no-app output iff its website is
non-empty, its `has_any_app` flag is 0, its confidence is at least 0.80,
and its notes code is one of the two negative-evidence codes; consequently
no row of the no-app output has an empty website or confidence below
0.80. -/
theorem no_app_filter_characterization (rows : List AuditRow) (row : AuditRow)
    (hmem : row ∈ rows) :
    (row ∈ no_app_filter rows ↔
      (row.website ≠ "" ∧ row.has_any_app = 0 ∧ NO_APP_CONF_THRESHOLD ≤ row.confidence ∧
        (row.notes = "no_store_links_found_on_homepage" ∨
         row.notes = "app_text_hint_but_no_store_link"))) ∧
    (∀ r ∈ no_app_filter rows, r.website ≠ "" ∧ NO_APP_CONF_THRESHOLD ≤ r.confidence) := by
  constructor
  · rw [← noAppPred_iff]
    unfold no_app_filter
    rw [List.mem_filter]
    exact ⟨fun h => h.2, fun h => ⟨hmem, h⟩⟩
  · intro r hr
    have h := (List.mem_filter.1 hr).2
    rw [noAppPred_iff] at h
    exact ⟨h.1, h.2.2.1⟩

/-- Witness for C1 on a concrete two-row list: the qualifying row is in the
output, and the filter conditions hold of it. -/
theorem no_app_filter_characterization_witness :
    sampleNoAppRow ∈ no_app_filter [sampleNoWebsiteRow, sampleNoAppRow] ∧
      sampleNoAppRow.website ≠ "" ∧ NO_APP_CONF_THRESHOLD ≤ sampleNoAppRow.confidence := by
  have h := no_app_filter_characterization [sampleNoWebsiteRow, sampleNoAppRow] sampleNoAppRow
    (by simp)
  have hcond : sampleNoAppRow.website ≠ "" ∧ sampleNoAppRow.has_any_app = 0 ∧
      NO_APP_CONF_THRESHOLD ≤ sampleNoAppRow.confidence ∧
      (sampleNoAppRow.notes = "no_store_links_found_on_homepage" ∨
       sampleNoAppRow.notes = "app_text_hint_but_no_store_link") := by
    refine ⟨by decide, rfl, ?_, Or.inl rfl⟩
    norm_num [sampleNoAppRow, NO_APP_CONF_THRESHOLD]
  exact ⟨h.1.2 hcond, hcond.1, hcond.2.2.1⟩

/-- C6: deduplicating the concatenation of the tiles' element lists keeps
each `(type, id)` identity exactly once — every input identity occurs in
the output, output identities are pairwise distinct — the output is a
sublist of the input (first-seen order preserved), and every kept element
is the first element of the concatenation bearing its identity. -/
theorem overpass_dedup_correct (tileElements : List (List OSMElement)) :
    ((overpass_fetch_restaurants_tiled tileElements).map elKey).Nodup ∧
    (∀ el ∈ tileElements.flatten,
      elKey el ∈ (overpass_fetch_restaurants_tiled tileElements).map elKey) ∧
    (overpass_fetch_restaurants_tiled tileElements).Sublist tileElements.flatten ∧
    (∀ y ∈ overpass_fetch_restaurants_tiled tileElements,
      tileElements.flatten.find? (fun z => elKey z = elKey y) = some y) := by
  unfold overpass_fetch_restaurants_tiled
  rw [overpassCollectLoop_eq_dedupeState]
  refine ⟨dedupeState_nodup_keys elKey _ _, ?_, dedupeState_sublist elKey _ _, ?_⟩
  · intro el hel
    exact dedupeState_key_covered elKey _ _ el hel (by simp)
  · intro y hy
    exact dedupeState_first_seen elKey _ _ y hy

/-- Witness for C6 on concrete overlapping tiles: the duplicated element is
kept once, at its first position. -/
theorem overpass_dedup_correct_witness :
    ([[sampleNode1], [sampleNode1, sampleNode2]].flatten.find?
        (fun z => elKey z = elKey sampleNode1) = some sampleNode1) ∧
      ((overpass_fetch_restaurants_tiled [[sampleNode1], [sampleNode1, sampleNode2]]).map
        elKey).Nodup := by
  have h := overpass_dedup_correct [[sampleNode1], [sampleNode1, sampleNode2]]
  exact ⟨h.2.2.2 sampleNode1 (by decide), h.1⟩

/-- C3: over the full pipeline (normalize, dedup, audit-build), no two
output rows share the dedup key (lower-cased stripped name and website,
coordinates rounded to 4 decimals, `none` sentinel when a coordinate is
absent), and every output row is built from the first normalized record
bearing its key. -/
theorem audit_dedup_key_unique (urljoin : String → String → String)
    (httpGet : String → HttpGet) (els : List OSMElement) :
    ((audit_rows urljoin httpGet (build_restaurants els)).map auditRowKey).Nodup ∧
    (∀ row ∈ audit_rows urljoin httpGet (build_restaurants els),
      ∃ r, (els.filterMap normalizeElement).find?
            (fun x => restaurantKey x = auditRowKey row) = some r ∧
        row = build_audit_row urljoin httpGet r) := by
  have hkey : ∀ r : Restaurant, auditRowKey (build_audit_row urljoin httpGet r) = restaurantKey r :=
    fun r => rfl
  unfold audit_rows build_restaurants
  rw [buildRestaurantsLoop_eq_dedupeState]
  constructor
  · rw [List.map_map]
    have : (auditRowKey ∘ build_audit_row urljoin httpGet) = restaurantKey := by
      funext r; exact hkey r
    rw [this]
    exact dedupeState_nodup_keys restaurantKey _ _
  · intro row hrow
    rcases List.mem_map.1 hrow with ⟨r, hr, rfl⟩
    refine ⟨r, ?_, rfl⟩
    rw [hkey r]
    exact dedupeState_first_seen restaurantKey _ _ r hr

/-- Witness for C3 on a concrete element list containing an exact
duplicate: the pipeline keeps one row per key, built from the first-seen
record. -/
theorem audit_dedup_key_unique_witness :
    ((audit_rows idJoin plainPageGet
        (build_restaurants [sampleNode1, sampleNode2, sampleNode1])).map auditRowKey).Nodup := by
  exact (audit_dedup_key_unique idJoin plainPageGet [sampleNode1, sampleNode2, sampleNode1]).1

theorem any_eq_find?_isSome (p : String → Bool) (l : List String) :
    l.any p = (l.find? p).isSome := by
  induction l with
  | nil => rfl
  | cons x xs ih =>
    cases hx : p x with
    | true =>
      rw [List.find?_cons_of_pos _ hx]
      simp [List.any_cons, hx]
    | false =>
      rw [List.find?_cons_of_neg _ (by simp [hx])]
      simp [List.any_cons, hx, ih]

/-- C2: on a successfully fetched page (status < 400) whose resolved anchor
hrefs contain a Play-Store detail link or an App-Store link, the classifier
answers `store_link_found_on_website` with confidence 0.95, flags set
according to which store pattern matched, and the first matching href as
evidence — regardless of the page text; the phrase-based outcome occurs
only when neither store pattern matched any href (and the text matched the
hint patterns). -/
theorem store_link_priority (urljoin : String → String → String)
    (httpGet : String → HttpGet) (website_url url finalUrl : String) (status : ℕ)
    (rawHrefs : List String) (text : String)
    (hnorm : normalize_url website_url = some url)
    (hget : httpGet url = .resp status finalUrl (.parsed rawHrefs text))
    (hstatus : status < 400) :
    ((resolvedHrefs urljoin finalUrl rawHrefs).any playSearch = true ∨
       (resolvedHrefs urljoin finalUrl rawHrefs).any appleSearch = true →
      (scrape_website_for_app_links urljoin httpGet website_url).notes =
          "store_link_found_on_website" ∧
      (scrape_website_for_app_links urljoin httpGet website_url).confidence = 95 / 100 ∧
      (scrape_website_for_app_links urljoin httpGet website_url).has_android_app =
          (resolvedHrefs urljoin finalUrl rawHrefs).any playSearch ∧
      (scrape_website_for_app_links urljoin httpGet website_url).has_ios_app =
          (resolvedHrefs urljoin finalUrl rawHrefs).any appleSearch ∧
      (scrape_website_for_app_links urljoin httpGet website_url).evidence_android_url =
          (resolvedHrefs urljoin finalUrl rawHrefs).find? playSearch ∧
      (scrape_website_for_app_links urljoin httpGet website_url).evidence_ios_url =
          (resolvedHrefs urljoin finalUrl rawHrefs).find? appleSearch) ∧
    ((scrape_website_for_app_links urljoin httpGet website_url).notes =
        "app_text_hint_but_no_store_link" →
      (resolvedHrefs urljoin finalUrl rawHrefs).any playSearch = false ∧
      (resolvedHrefs urljoin finalUrl rawHrefs).any appleSearch = false ∧
      app_text_hint text = true) := by
  have hscrape : scrape_website_for_app_links urljoin httpGet website_url =
      classifyParsed urljoin finalUrl rawHrefs text := by
    simp only [scrape_website_for_app_links, hnorm, hget]
    rw [if_neg (by omega)]
  rw [hscrape]
  simp only [classifyParsed, any_eq_find?_isSome]
  constructor
  · intro hany
    have hcond : (((resolvedHrefs urljoin finalUrl rawHrefs).find? playSearch).isSome
        || ((resolvedHrefs urljoin finalUrl rawHrefs).find? appleSearch).isSome) = true := by
      rcases hany with h | h
      · simp [h]
      · simp [h]
    rw [if_pos hcond]
    exact ⟨rfl, rfl, rfl, rfl, rfl, rfl⟩
  · intro hnotes
    by_cases hcond : (((resolvedHrefs urljoin finalUrl rawHrefs).find? playSearch).isSome
        || ((resolvedHrefs urljoin finalUrl rawHrefs).find? appleSearch).isSome) = true
    · rw [if_pos hcond] at hnotes
      simp at hnotes
    · rw [if_neg hcond] at hnotes
      simp only [Bool.or_eq_true, not_or, Bool.not_eq_true] at hcond
      by_cases htext : app_text_hint text = true
      · exact ⟨hcond.1, hcond.2, htext⟩
      · rw [if_neg htext] at hnotes
        simp at hnotes

/-- Witness for C2: a concrete page carrying both a Play-Store link and
hint text classifies as `store_link_found_on_website`. -/
theorem store_link_priority_witness :
    (scrape_website_for_app_links idJoin
      (fun _ => .resp 200 "https://alpha.example/"
        (.parsed ["https://play.google.com/store/apps/details?id=com.alpha"]
          "download our app"))
      "alpha.example").notes = "store_link_found_on_website" := by
  have h := store_link_priority idJoin
    (fun _ => .resp 200 "https://alpha.example/"
      (.parsed ["https://play.google.com/store/apps/details?id=com.alpha"] "download our app"))
    "alpha.example" "https://alpha.example" "https://alpha.example/" 200
    ["https://play.google.com/store/apps/details?id=com.alpha"] "download our app"
    (by decide) rfl (by omega)
  exact (h.1 (Or.inl (by decide))).1

/-- C9: the classifier maps every failure mode to a verdict rather than an
exception: failed URL normalization gives `invalid_website_url` at 0.1, a
transport error gives `request_error:<kind>` at 0.2, an HTTP status ≥ 400
gives `http_<status>` at 0.2, and a parse-time exception gives
`parse_error:<kind>` at 0.2. -/
theorem classifier_error_verdicts (urljoin : String → String → String)
    (httpGet : String → HttpGet) (website_url : String) :
    (normalize_url website_url = none →
      (scrape_website_for_app_links urljoin httpGet website_url).notes = "invalid_website_url" ∧
      (scrape_website_for_app_links urljoin httpGet website_url).confidence = 1 / 10) ∧
    (∀ url ename, normalize_url website_url = some url → httpGet url = .exc ename →
      (scrape_website_for_app_links urljoin httpGet website_url).notes =
          "request_error:" ++ ename ∧
      (scrape_website_for_app_links urljoin httpGet website_url).confidence = 2 / 10) ∧
    (∀ url status finalUrl page, normalize_url website_url = some url →
      httpGet url = .resp status finalUrl page → 400 ≤ status →
      (scrape_website_for_app_links urljoin httpGet website_url).notes =
          "http_" ++ toString status ∧
      (scrape_website_for_app_links urljoin httpGet website_url).confidence = 2 / 10) ∧
    (∀ url status finalUrl ename, normalize_url website_url = some url →
      httpGet url = .resp status finalUrl (.exc ename) → status < 400 →
      (scrape_website_for_app_links urljoin httpGet website_url).notes =
          "parse_error:" ++ ename ∧
      (scrape_website_for_app_links urljoin httpGet website_url).confidence = 2 / 10) := by
  refine ⟨?_, ?_, ?_, ?_⟩
  · intro hn
    simp [scrape_website_for_app_links, hn]
  · intro url ename hn hg
    simp [scrape_website_for_app_links, hn, hg]
  · intro url status finalUrl page hn hg hs
    simp [scrape_website_for_app_links, hn, hg, hs]
  · intro url status finalUrl ename hn hg hs
    have hs4 : ¬ 400 ≤ status := by omega
    simp [scrape_website_for_app_links, hn, hg, hs4]

/-- Witness for C9: each of the four error branches evaluated at a concrete
input. -/
theorem classifier_error_verdicts_witness :
    ((scrape_website_for_app_links idJoin plainPageGet "").notes = "invalid_website_url" ∧
      (scrape_website_for_app_links idJoin plainPageGet "").confidence = 1 / 10) ∧
    ((scrape_website_for_app_links idJoin (fun _ => .exc "ConnectTimeout")
        "alpha.example").notes = "request_error:" ++ "ConnectTimeout") ∧
    ((scrape_website_for_app_links idJoin (fun _ => .resp 404 "u" (.parsed [] ""))
        "alpha.example").notes = "http_" ++ toString 404) ∧
    ((scrape_website_for_app_links idJoin (fun _ => .resp 200 "u" (.exc "TypeError"))
        "alpha.example").notes = "parse_error:" ++ "TypeError") := by
  refine ⟨?_, ?_, ?_, ?_⟩
  · exact (classifier_error_verdicts idJoin plainPageGet "").1 (by decide)
  · exact ((classifier_error_verdicts idJoin (fun _ => .exc "ConnectTimeout")
      "alpha.example").2.1 "https://alpha.example" "ConnectTimeout" (by decide) rfl).1
  · exact ((classifier_error_verdicts idJoin (fun _ => .resp 404 "u" (.parsed [] ""))
      "alpha.example").2.2.1 "https://alpha.example" 404 "u" (.parsed [] "") (by decide) rfl
      (by omega)).1
  · exact ((classifier_error_verdicts idJoin (fun _ => .resp 200 "u" (.exc "TypeError"))
      "alpha.example").2.2.2 "https://alpha.example" 200 "u" "TypeError" (by decide) rfl
      (by omega)).1

theorem scrape_noapp_shape (urljoin : String → String → String) (httpGet : String → HttpGet)
    (u : String)
    (hnotes : (scrape_website_for_app_links urljoin httpGet u).notes =
          "no_store_links_found_on_homepage" ∨
        (scrape_website_for_app_links urljoin httpGet u).notes =
          "app_text_hint_but_no_store_link")
    (hconf : NO_APP_CONF_THRESHOLD ≤ q2 (scrape_website_for_app_links urljoin httpGet u).confidence) :
    (scrape_website_for_app_links urljoin httpGet u).notes =
        "no_store_links_found_on_homepage" ∧
      (scrape_website_for_app_links urljoin httpGet u).confidence = 85 / 100 := by
  rcases hn : normalize_url u with _ | url
  · rcases hnotes with h | h <;> simp [scrape_website_for_app_links, hn] at h
  · rcases hg : httpGet url with ename | ⟨st, fu, page⟩
    · exact absurd hnotes (by
        rintro (h | h) <;>
          (simp only [scrape_website_for_app_links, hn, hg] at h;
           exact absurd (congrArg String.data h) (by simp [String.data_append])))
    · by_cases hst : 400 ≤ st
      · exact absurd hnotes (by
          rintro (h | h) <;>
            (simp only [scrape_website_for_app_links, hn, hg] at h;
             rw [if_pos hst] at h;
             exact absurd (congrArg String.data h) (by simp [String.data_append])))
      · rcases page with ⟨raw, text⟩ | ename
        · have hred : scrape_website_for_app_links urljoin httpGet u =
              classifyParsed urljoin fu raw text := by
            simp only [scrape_website_for_app_links, hn, hg]
            rw [if_neg hst]
          rw [hred] at hnotes hconf ⊢
          simp only [classifyParsed] at hnotes hconf ⊢
          by_cases hstore : ((((resolvedHrefs urljoin fu raw).find? playSearch).isSome
              || ((resolvedHrefs urljoin fu raw).find? appleSearch).isSome) = true)
          · rw [if_pos hstore] at hnotes
            rcases hnotes with h | h <;> simp at h
          · rw [if_neg hstore] at hnotes hconf ⊢
            by_cases htext : app_text_hint text = true
            · rw [if_pos htext] at hconf
              norm_num [q2, NO_APP_CONF_THRESHOLD] at hconf
            · rw [if_neg htext]
              exact ⟨rfl, rfl⟩
        · exact absurd hnotes (by
            rintro (h | h) <;>
              (simp only [scrape_website_for_app_links, hn, hg] at h;
               rw [if_neg hst] at h;
               exact absurd (congrArg String.data h) (by simp [String.data_append])))

/-- C10: every row of the no-app output has notes exactly
`no_store_links_found_on_homepage` and confidence 0.85 (rendered `"0.85"`):
the text-hint verdict always comes with confidence 0.6, which fails the
0.80 threshold, so that branch never reaches the no-app subset. -/
theorem no_app_rows_notes (urljoin : String → String → String) (httpGet : String → HttpGet)
    (rs : List Restaurant) :
    ∀ row ∈ no_app_rows urljoin httpGet rs,
      row.notes = "no_store_links_found_on_homepage" ∧ row.confidence = 85 / 100 ∧
        fmt2 row.confidence = "0.85" := by
  intro row hrow
  have hmem := List.mem_filter.1 hrow
  have hpred := (noAppPred_iff row).1 hmem.2
  rcases List.mem_map.1 hmem.1 with ⟨r, hr, rfl⟩
  by_cases hw : r.website = ""
  · have hww : (build_audit_row urljoin httpGet r).website = "" := by
      rw [show (build_audit_row urljoin httpGet r).website = r.website from rfl, hw]
    exact absurd hww hpred.1
  · have hnotes_eq : (build_audit_row urljoin httpGet r).notes =
        (scrape_website_for_app_links urljoin httpGet r.website).notes := by
      simp only [build_audit_row]
      rw [if_pos hw]
    have hconf_eq : (build_audit_row urljoin httpGet r).confidence =
        q2 (scrape_website_for_app_links urljoin httpGet r.website).confidence := by
      simp only [build_audit_row]
      rw [if_pos hw]
    have hshape := scrape_noapp_shape urljoin httpGet r.website
      (by rw [hnotes_eq] at hpred; exact hpred.2.2.2)
      (by rw [hconf_eq] at hpred; exact hpred.2.2.1)
    refine ⟨by rw [hnotes_eq, hshape.1], ?_, ?_⟩
    · rw [hconf_eq, hshape.2]
      norm_num [q2]
    · rw [hconf_eq, hshape.2]
      have : q2 (85 / 100 : ℚ) = 85 / 100 := by norm_num [q2]
      rw [this]
      norm_num [fmt2]
      decide

/-- Witness for C10: a concrete pipeline run whose single no-app row shows
the invariant. -/
theorem no_app_rows_notes_witness :
    (build_audit_row idJoin plainPageGet sampleRestaurant).notes =
        "no_store_links_found_on_homepage" ∧
      fmt2 (build_audit_row idJoin plainPageGet sampleRestaurant).confidence = "0.85" := by
  have hmem : build_audit_row idJoin plainPageGet sampleRestaurant ∈
      no_app_rows idJoin plainPageGet [sampleRestaurant] := by
    have hp : noAppPred (build_audit_row idJoin plainPageGet sampleRestaurant) = true := by
      rw [noAppPred_iff]
      refine ⟨by decide, by decide, ?_, Or.inl (by decide)⟩
      rw [show (build_audit_row idJoin plainPageGet sampleRestaurant).confidence =
        q2 (85 / 100 : ℚ) from rfl]
      norm_num [q2, NO_APP_CONF_THRESHOLD]
    unfold no_app_rows no_app_filter audit_rows
    simp [hp]
  have h := no_app_rows_notes idJoin plainPageGet [sampleRestaurant] _ hmem
  exact ⟨h.1, h.2.2⟩

/-- Counterexample to C5 as stated: the input `"ftp://host"` carries the
scheme `ftp` (neither http nor https), yet the normalizer does not return
the invalid outcome — it prefixes `"https://"` (so prefixing is not
conditioned on "lacking a scheme") and accepts the result. -/
theorem normalize_url_scheme_counterexample :
    urlparse_scheme "ftp://host" = "ftp" ∧
      normalize_url "ftp://host" = some "https://ftp://host" := by decide

/-- C5 (amended): the normalizer trims whitespace, prefixes `"https://"`
iff the trimmed non-empty string does not start with `"http://"` or
`"https://"` (regardless of whether it carries some other scheme), and
returns the resulting URL exactly when its parse has scheme http or https
and a non-empty host; it returns the invalid outcome in every other case. -/
theorem normalize_tail (u : String) :
    (if !(urlparse_scheme u = "http" || urlparse_scheme u = "https") then none
     else if urlparse_netloc u = "" then none else some u) =
      (if (urlparse_scheme u = "http" ∨ urlparse_scheme u = "https") ∧
          urlparse_netloc u ≠ "" then some u else none) := by
  by_cases h1 : urlparse_scheme u = "http" ∨ urlparse_scheme u = "https"
  · by_cases h2 : urlparse_netloc u = ""
    · rcases h1 with h | h <;> simp [h, h2]
    · rcases h1 with h | h <;> simp [h, h2]
  · have hA : ¬ urlparse_scheme u = "http" := fun h => h1 (Or.inl h)
    have hB : ¬ urlparse_scheme u = "https" := fun h => h1 (Or.inr h)
    simp [hA, hB]

theorem normalize_url_spec (s : String) :
    normalize_url s =
      (let t := pyStrip s
       let u := if strStartsWith t "http://" || strStartsWith t "https://" then t
                else "https://" ++ t
       if t = "" then none
       else if (urlparse_scheme u = "http" ∨ urlparse_scheme u = "https") ∧
           urlparse_netloc u ≠ "" then some u
       else none) := by
  by_cases hs : s = ""
  · subst hs; decide
  · simp only [normalize_url]
    rw [if_neg hs]
    by_cases ht : pyStrip s = ""
    · rw [if_pos ht]
      simp [ht]
    · rw [if_neg ht]
      simp only [if_neg ht]
      exact normalize_tail _

/-- Counterexample to C8 as stated: an element whose `name` tag is present
(but empty) yields zero records, where the claim requires exactly one for
every entity that has a name tag. Python's `if not name` drops the empty
string as well as the missing key. -/
theorem normalize_empty_name_counterexample :
    (tagsGet (emptyNameElement.tags.getD []) "name").isSome = true ∧
      normalizeElement emptyNameElement = none := by decide

theorem pyTruthy_none : pyTruthy none = none := rfl

theorem pyTruthy_some_empty : pyTruthy (some "") = none := rfl

theorem pyTruthy_some_ne (v : String) (hv : v ≠ "") : pyTruthy (some v) = some v := by
  simp [pyTruthy, hv]

theorem filterMap_pyTruthy (ts : List (String × String)) (ks : List String) :
    (ks.filterMap fun k => pyTruthy (tagsGet ts k)) =
      (ks.filterMap (tagsGet ts)).filter (fun v => v ≠ "") := by
  induction ks with
  | nil => rfl
  | cons k ks ih =>
    cases h : tagsGet ts k with
    | none =>
      simp [List.filterMap_cons, h, pyTruthy_none, ih]
    | some v =>
      by_cases hv : v = ""
      · subst hv
        simp [List.filterMap_cons, h, pyTruthy_some_empty, List.filter_cons, ih]
      · simp [List.filterMap_cons, h, pyTruthy_some_ne v hv, List.filter_cons, hv, ih]

theorem extract_address_eq_spec (ts : List (String × String)) :
    extract_address ts = specAddress ts := by
  unfold extract_address specAddress
  rw [filterMap_pyTruthy]

theorem phone_chain_eq (ts : List (String × String)) :
    (pyOrS (tagsGet ts "phone") (tagsGet ts "contact:phone")).getD "" =
      (firstNonEmptyTag ts ["phone", "contact:phone"]).getD "" := by
  cases h1 : tagsGet ts "phone" with
  | none =>
    cases h2 : tagsGet ts "contact:phone" with
    | none => simp [pyOrS, pyTruthy, firstNonEmptyTag, h1, h2]
    | some v =>
      by_cases hv : v = "" <;> simp [pyOrS, pyTruthy, firstNonEmptyTag, h1, h2, hv]
  | some v =>
    by_cases hv : v = ""
    · cases h2 : tagsGet ts "contact:phone" with
      | none => simp [pyOrS, pyTruthy, firstNonEmptyTag, h1, h2, hv]
      | some w =>
        by_cases hw : w = "" <;> simp [pyOrS, pyTruthy, firstNonEmptyTag, h1, h2, hv, hw]
    · simp [pyOrS, pyTruthy, firstNonEmptyTag, h1, hv]

theorem website_chain_eq (ts : List (String × String)) :
    pyTruthy (pyOrS (tagsGet ts "website")
        (pyOrS (tagsGet ts "contact:website") (tagsGet ts "url"))) =
      firstNonEmptyTag ts ["website", "contact:website", "url"] := by
  cases h1 : tagsGet ts "website" with
  | none =>
    cases h2 : tagsGet ts "contact:website" with
    | none =>
      cases h3 : tagsGet ts "url" with
      | none => simp [pyOrS, pyTruthy, firstNonEmptyTag, h1, h2, h3]
      | some v =>
        by_cases hv : v = "" <;> simp [pyOrS, pyTruthy, firstNonEmptyTag, h1, h2, h3, hv]
    | some v =>
      by_cases hv : v = ""
      · cases h3 : tagsGet ts "url" with
        | none => simp [pyOrS, pyTruthy, firstNonEmptyTag, h1, h2, h3, hv]
        | some w =>
          by_cases hw : w = "" <;>
            simp [pyOrS, pyTruthy, firstNonEmptyTag, h1, h2, h3, hv, hw]
      · simp [pyOrS, pyTruthy, firstNonEmptyTag, h1, h2, hv]
  | some v =>
    by_cases hv : v = ""
    · cases h2 : tagsGet ts "contact:website" with
      | none =>
        cases h3 : tagsGet ts "url" with
        | none => simp [pyOrS, pyTruthy, firstNonEmptyTag, h1, h2, h3, hv]
        | some w =>
          by_cases hw : w = "" <;>
            simp [pyOrS, pyTruthy, firstNonEmptyTag, h1, h2, h3, hv, hw]
      | some w =>
        by_cases hw : w = ""
        · cases h3 : tagsGet ts "url" with
          | none => simp [pyOrS, pyTruthy, firstNonEmptyTag, h1, h2, h3, hv, hw]
          | some x =>
            by_cases hx : x = "" <;>
              simp [pyOrS, pyTruthy, firstNonEmptyTag, h1, h2, h3, hv, hw, hx]
        · simp [pyOrS, pyTruthy, firstNonEmptyTag, h1, h2, hv, hw]
    · simp [pyOrS, pyTruthy, firstNonEmptyTag, h1, hv]

/-- C8 (amended): normalization yields zero records exactly when the name
tag is absent or empty; otherwise one record whose address joins the
present non-empty address fragments in fixed order, whose phone is the
first present non-empty of phone/contact:phone (else empty), whose website
is the first present non-empty of website/contact:website/url passed
through URL normalization (else empty), and whose coordinates come from
the element's direct lat/lon when both are present, else its center point,
else are absent. The spec's Cafe X example normalizes to website
`https://cafex.com`. -/
theorem normalizeElement_spec :
    (∀ el, normalizeElement el = specNormalize el) ∧
      normalizeElement cafeXElement = some
        { name := "Cafe X"
          address := ""
          phone := ""
          website := "https://cafex.com"
          lat := some (336 / 10)
          lon := some (7305 / 100)
          source := "OSM/Overpass"
          osm_type := "node"
          osm_id := some 1 } := by
  constructor
  · intro el
    cases hname : tagsGet (el.tags.getD []) "name" with
    | none =>
      simp only [normalizeElement, specNormalize, hname, pyTruthy_none]
    | some n =>
      by_cases hn : n = ""
      · subst hn
        simp [normalizeElement, specNormalize, hname, pyTruthy_some_empty]
      · simp only [normalizeElement, specNormalize, hname, pyTruthy_some_ne n hn, if_neg hn]
        simp only [Option.some.injEq, Restaurant.mk.injEq]
        refine ⟨by trivial, extract_address_eq_spec _, phone_chain_eq _, ?_, ?_, ?_,
          by trivial, by trivial, by trivial⟩
        · rw [website_chain_eq]
          cases firstNonEmptyTag (el.tags.getD []) ["website", "contact:website", "url"] <;> rfl
        · cases el.lat <;> cases el.lon <;> rfl
        · cases el.lat <;> cases el.lon <;> rfl
  · rfl

theorem tile_bbox_length (b : BBox) (rows cols : ℕ) :
    (tile_bbox b rows cols).length = rows * cols := by
  unfold tile_bbox List.flatMap
  rw [List.length_flatten, List.map_map]
  have : (List.length ∘ fun r => (List.range cols).map fun c => tileOf b rows cols r c) =
      fun _ => cols := by
    funext r
    simp
  rw [this, List.map_const', List.sum_replicate, List.length_range, smul_eq_mul, Nat.mul_comm]

theorem grid_getElem? {α : Type _} :
    ∀ (rows : ℕ) (f : ℕ → ℕ → α) (cols r c : ℕ), r < rows → c < cols →
      ((List.range rows).flatMap fun i => (List.range cols).map (f i))[r * cols + c]? =
        some (f r c) := by
  intro rows
  induction rows with
  | zero => intro f cols r c hr; omega
  | succ rows ih =>
    intro f cols r c hr hc
    rw [List.range_succ_eq_map, List.flatMap_cons, List.flatMap_map]
    cases r with
    | zero =>
      rw [List.getElem?_append_left (by simpa using hc)]
      simp [List.getElem?_range hc]
    | succ r =>
      rw [List.getElem?_append_right (by simp [Nat.succ_mul]; omega)]
      have hidx : (r + 1) * cols + c - ((List.range cols).map (f 0)).length = r * cols + c := by
        simp [Nat.succ_mul]
        omega
      rw [hidx]
      exact ih (fun i => f (i + 1)) cols r c (by omega) hc

theorem tileOf_mem (b : BBox) (rows cols r c : ℕ) (hr : r < rows) (hc : c < cols) :
    tileOf b rows cols r c ∈ tile_bbox b rows cols := by
  unfold tile_bbox
  exact List.mem_flatMap.2 ⟨r, List.mem_range.2 hr,
    List.mem_map.2 ⟨c, List.mem_range.2 hc, rfl⟩⟩

theorem mem_tile_bbox (b : BBox) (rows cols : ℕ) (t : BBox)
    (h : t ∈ tile_bbox b rows cols) :
    ∃ r c, r < rows ∧ c < cols ∧ t = tileOf b rows cols r c := by
  unfold tile_bbox at h
  rcases List.mem_flatMap.1 h with ⟨r, hr, hmap⟩
  rcases List.mem_map.1 hmap with ⟨c, hc, rfl⟩
  exact ⟨r, c, List.mem_range.1 hr, List.mem_range.1 hc, rfl⟩

theorem exists_cell :
    ∀ (k : ℕ) (st x : ℚ), 0 < st → 0 < k → 0 ≤ x → x ≤ (k : ℚ) * st →
      ∃ r : ℕ, r < k ∧ (r : ℚ) * st ≤ x ∧ x ≤ ((r : ℚ) + 1) * st := by
  intro k
  induction k with
  | zero => intro st x _ hk; omega
  | succ k ih =>
    intro st x hst _ h0 h1
    by_cases hx : x ≤ (k : ℚ) * st
    · rcases Nat.eq_zero_or_pos k with hk0 | hkpos
      · subst hk0
        refine ⟨0, Nat.zero_lt_one, by simpa using h0, ?_⟩
        push_cast at h1 ⊢
        linarith
      · rcases ih st x hst hkpos h0 hx with ⟨r, hrk, hlo, hhi⟩
        exact ⟨r, by omega, hlo, hhi⟩
    · push_neg at hx
      refine ⟨k, Nat.lt_succ_self k, le_of_lt hx, ?_⟩
      push_cast at h1 ⊢
      linarith

theorem cell_interiors_disjoint (st x : ℚ) (hst : 0 < st) (r1 r2 : ℕ) (h12 : r1 < r2)
    (hx1 : x < ((r1 : ℚ) + 1) * st) (hx2 : (r2 : ℚ) * st < x) : False := by
  have hle : ((r1 : ℚ) + 1) ≤ (r2 : ℚ) := by exact_mod_cast h12
  nlinarith

theorem rows_steps_cover (b : BBox) (rows : ℕ) (hr : 0 < rows) (hsn : b.south < b.north) :
    (rows : ℚ) * ((b.north - b.south) / rows) = b.north - b.south := by
  have hrq : (rows : ℚ) ≠ 0 := by positivity
  field_simp

/-- C7: for a proper bounding box and positive row/column counts, the tiler
produces exactly `rows × cols` tiles in row-major order (the tile at index
`r * cols + c` is the `(r, c)` grid cell), the union of the tiles exactly
covers the parent box, and any two distinct tiles overlap at most on their
boundaries (open interiors are disjoint). -/
theorem tile_bbox_correct (b : BBox) (rows cols : ℕ)
    (hsn : b.south < b.north) (hwe : b.west < b.east) (hr : 0 < rows) (hc : 0 < cols) :
    (tile_bbox b rows cols).length = rows * cols ∧
    (∀ r c, r < rows → c < cols →
      (tile_bbox b rows cols)[r * cols + c]? = some (tileOf b rows cols r c)) ∧
    (∀ la lo, inBBox b la lo ↔ ∃ t ∈ tile_bbox b rows cols, inBBox t la lo) ∧
    (∀ (i j : ℕ) (t1 t2 : BBox), i ≠ j →
      (tile_bbox b rows cols)[i]? = some t1 → (tile_bbox b rows cols)[j]? = some t2 →
      ∀ la lo, ¬(inOpenBBox t1 la lo ∧ inOpenBBox t2 la lo)) := by
  have hstLat : 0 < (b.north - b.south) / (rows : ℚ) := by
    apply div_pos (by linarith)
    exact_mod_cast hr
  have hstLon : 0 < (b.east - b.west) / (cols : ℚ) := by
    apply div_pos (by linarith)
    exact_mod_cast hc
  have hidx : ∀ r c, r < rows → c < cols →
      (tile_bbox b rows cols)[r * cols + c]? = some (tileOf b rows cols r c) := by
    intro r c hrr hcc
    unfold tile_bbox
    exact grid_getElem? rows (tileOf b rows cols) cols r c hrr hcc
  refine ⟨tile_bbox_length b rows cols, hidx, ?_, ?_⟩
  · intro la lo
    constructor
    · rintro ⟨h1, h2, h3, h4⟩
      have hrow := rows_steps_cover b rows hr hsn
      have hcol := rows_steps_cover ⟨b.west, b.south, b.east, b.north⟩ cols hc hwe
      simp only at hcol
      rcases exists_cell rows ((b.north - b.south) / rows) (la - b.south) hstLat hr
          (by linarith) (by rw [hrow]; linarith) with ⟨r, hrk, hrlo, hrhi⟩
      rcases exists_cell cols ((b.east - b.west) / cols) (lo - b.west) hstLon hc
          (by linarith) (by rw [hcol]; linarith) with ⟨c, hck, hclo, hchi⟩
      refine ⟨tileOf b rows cols r c, tileOf_mem b rows cols r c hrk hck, ?_⟩
      simp only [tileOf, inBBox]
      push_cast
      refine ⟨by linarith, by linarith, by linarith, by linarith⟩
    · rintro ⟨t, hmem, ht⟩
      rcases mem_tile_bbox b rows cols t hmem with ⟨r, c, hrr, hcc, rfl⟩
      simp only [tileOf, inBBox] at ht
      rcases ht with ⟨h1, h2, h3, h4⟩
      have hr1 : ((r : ℚ) + 1) ≤ rows := by exact_mod_cast hrr
      have hc1 : ((c : ℚ) + 1) ≤ cols := by exact_mod_cast hcc
      have hrow := rows_steps_cover b rows hr hsn
      have hcol := rows_steps_cover ⟨b.west, b.south, b.east, b.north⟩ cols hc hwe
      simp only at hcol
      have hlat0 : (0 : ℚ) ≤ (r : ℚ) * ((b.north - b.south) / rows) := by positivity
      have hlon0 : (0 : ℚ) ≤ (c : ℚ) * ((b.east - b.west) / cols) := by positivity
      have hlatUB : ((r : ℚ) + 1) * ((b.north - b.south) / rows) ≤
          (rows : ℚ) * ((b.north - b.south) / rows) :=
        mul_le_mul_of_nonneg_right hr1 (le_of_lt hstLat)
      have hlonUB : ((c : ℚ) + 1) * ((b.east - b.west) / cols) ≤
          (cols : ℚ) * ((b.east - b.west) / cols) :=
        mul_le_mul_of_nonneg_right hc1 (le_of_lt hstLon)
      push_cast at h1 h2 h3 h4
      refine ⟨by linarith, by nlinarith, by linarith, by nlinarith⟩
  · intro i j t1 t2 hij hi hj la lo
    rintro ⟨ho1, ho2⟩
    have hli : i < rows * cols := by
      rcases List.getElem?_eq_some_iff.1 hi with ⟨hlt, _⟩
      rwa [tile_bbox_length] at hlt
    have hlj : j < rows * cols := by
      rcases List.getElem?_eq_some_iff.1 hj with ⟨hlt, _⟩
      rwa [tile_bbox_length] at hlt
    have hdivi : i / cols < rows := (Nat.div_lt_iff_lt_mul hc).2 hli
    have hdivj : j / cols < rows := (Nat.div_lt_iff_lt_mul hc).2 hlj
    have hdi : (i / cols) * cols + i % cols = i := by
      rw [Nat.mul_comm]
      exact Nat.div_add_mod i cols
    have hdj : (j / cols) * cols + j % cols = j := by
      rw [Nat.mul_comm]
      exact Nat.div_add_mod j cols
    have hti : t1 = tileOf b rows cols (i / cols) (i % cols) := by
      have h := hidx (i / cols) (i % cols) hdivi (Nat.mod_lt _ hc)
      rw [hdi, hi] at h
      exact Option.some.inj h
    have htj : t2 = tileOf b rows cols (j / cols) (j % cols) := by
      have h := hidx (j / cols) (j % cols) hdivj (Nat.mod_lt _ hc)
      rw [hdj, hj] at h
      exact Option.some.inj h
    subst hti htj
    simp only [tileOf, inOpenBBox] at ho1 ho2
    rcases ho1 with ⟨o1a, o1b, o1c, o1d⟩
    rcases ho2 with ⟨o2a, o2b, o2c, o2d⟩
    rcases Nat.lt_trichotomy (i / cols) (j / cols) with hlt | heq | hgt
    · exact cell_interiors_disjoint ((b.north - b.south) / rows) (la - b.south) hstLat
        (i / cols) (j / cols) hlt (by push_cast at o1b ⊢; linarith)
        (by push_cast at o2a ⊢; linarith)
    · have hmod : i % cols ≠ j % cols := by
        intro hmm
        apply hij
        rw [heq, hmm] at hdi
        omega
      rcases Nat.lt_or_ge (i % cols) (j % cols) with hmlt | hmge
      · exact cell_interiors_disjoint ((b.east - b.west) / cols) (lo - b.west) hstLon
          (i % cols) (j % cols) hmlt (by push_cast at o1d ⊢; linarith)
          (by push_cast at o2c ⊢; linarith)
      · have hmgt : j % cols < i % cols := by omega
        exact cell_interiors_disjoint ((b.east - b.west) / cols) (lo - b.west) hstLon
          (j % cols) (i % cols) hmgt (by push_cast at o2d ⊢; linarith)
          (by push_cast at o1c ⊢; linarith)
    · exact cell_interiors_disjoint ((b.north - b.south) / rows) (la - b.south) hstLat
        (j / cols) (i / cols) hgt (by push_cast at o2b ⊢; linarith)
        (by push_cast at o1a ⊢; linarith)

section RetryLemmas

variable {α : Type _} (oracle : String → ℕ → FetchOutcome α)

theorem attemptRun_eq_schedState (ep : String) :
    ∀ (as : List ℕ) (le : Option String),
      attemptRun oracle ep as le = schedState oracle (as.map fun a => (ep, a)) le := by
  intro as
  induction as with
  | nil => intro le; rfl
  | cons a as ih =>
    intro le
    cases h : oracle ep a with
    | ok b => simp [attemptRun, schedState, h]
    | httpErr st => simp [attemptRun, schedState, h, ih]
    | exc n m => simp [attemptRun, schedState, h, ih]

theorem schedState_append (xs ys : List (String × ℕ)) :
    ∀ le : Option String,
      schedState oracle (xs ++ ys) le =
        (match (schedState oracle xs le).1 with
         | some b => (some b, (schedState oracle xs le).2.1,
             (schedState oracle xs le).2.2.1, (schedState oracle xs le).2.2.2)
         | none =>
           ((schedState oracle ys (schedState oracle xs le).2.1).1,
            (schedState oracle ys (schedState oracle xs le).2.1).2.1,
            (schedState oracle xs le).2.2.1 ++
              (schedState oracle ys (schedState oracle xs le).2.1).2.2.1,
            (schedState oracle xs le).2.2.2 ++
              (schedState oracle ys (schedState oracle xs le).2.1).2.2.2)) := by
  induction xs with
  | nil => intro le; simp [schedState]
  | cons p ps ih =>
    intro le
    cases h : oracle p.1 p.2 with
    | ok b => simp [schedState, h]
    | httpErr st =>
      simp only [List.cons_append, schedState, h, List.append_eq]
      rw [ih]
      cases h2 : (schedState oracle ps (errDetail p.1 (FetchOutcome.httpErr st))).1 <;> simp
    | exc n m =>
      simp only [List.cons_append, schedState, h, List.append_eq]
      rw [ih]
      cases h2 : (schedState oracle ps (errDetail p.1 (FetchOutcome.exc n m))).1 <;> simp

theorem endpointRun_eq_schedState :
    ∀ (eps : List String) (attempts : List ℕ) (le : Option String),
      endpointRun oracle eps attempts le =
        schedState oracle (eps.flatMap fun ep => attempts.map fun a => (ep, a)) le := by
  intro eps
  induction eps with
  | nil => intro attempts le; rfl
  | cons ep eps ih =>
    intro attempts le
    simp only [endpointRun, List.flatMap_cons, attemptRun_eq_schedState oracle ep attempts le]
    rw [schedState_append]
    cases h : (schedState oracle (attempts.map fun a => (ep, a)) le).1 with
    | none => simp [ih]
    | some b => simp

theorem schedState_calls_prefix :
    ∀ (sched : List (String × ℕ)) (le : Option String),
      ∃ t, (schedState oracle sched le).2.2.1 ++ t = sched := by
  intro sched
  induction sched with
  | nil => intro le; exact ⟨[], rfl⟩
  | cons p ps ih =>
    intro le
    cases h : oracle p.1 p.2 with
    | ok b => exact ⟨ps, by simp [schedState, h]⟩
    | httpErr st =>
      rcases ih (@errDetail α p.1 (FetchOutcome.httpErr st)) with ⟨t, ht⟩
      exact ⟨t, by simp [schedState, h]; exact ht⟩
    | exc n m =>
      rcases ih (@errDetail α p.1 (FetchOutcome.exc n m)) with ⟨t, ht⟩
      exact ⟨t, by simp [schedState, h]; exact ht⟩

theorem schedState_sleeps :
    ∀ (sched : List (String × ℕ)) (le : Option String),
      (schedState oracle sched le).2.2.2 =
        ((schedState oracle sched le).2.2.1.filter fun p => !(isOkAt oracle p)).map
          fun p => 2 ^ p.2 := by
  intro sched
  induction sched with
  | nil => intro le; rfl
  | cons p ps ih =>
    intro le
    cases h : oracle p.1 p.2 with
    | ok b =>
      have hok : isOkAt oracle p = true := by simp [isOkAt, h]
      simp [schedState, h, List.filter_cons, hok]
    | httpErr st =>
      have hok : isOkAt oracle p = false := by simp [isOkAt, h]
      simp [schedState, h, List.filter_cons, hok, ih]
    | exc n m =>
      have hok : isOkAt oracle p = false := by simp [isOkAt, h]
      simp [schedState, h, List.filter_cons, hok, ih]

theorem schedState_first_ok :
    ∀ (sched : List (String × ℕ)) (le : Option String) (p : String × ℕ) (b : α),
      sched.find? (isOkAt oracle) = some p → oracle p.1 p.2 = .ok b →
      (schedState oracle sched le).1 = some b := by
  intro sched
  induction sched with
  | nil => intro le p b hfind; simp at hfind
  | cons q ps ih =>
    intro le p b hfind hok
    cases h : oracle q.1 q.2 with
    | ok c =>
      have hq : isOkAt oracle q = true := by simp [isOkAt, h]
      rw [List.find?_cons_of_pos _ hq] at hfind
      have : q = p := by injection hfind
      subst this
      rw [h] at hok
      injection hok with hbc
      simp [schedState, h, hbc]
    | httpErr st =>
      have hq : isOkAt oracle q = false := by simp [isOkAt, h]
      rw [List.find?_cons_of_neg _ (by simp [hq])] at hfind
      simp [schedState, h, ih _ p b hfind hok]
    | exc n m =>
      have hq : isOkAt oracle q = false := by simp [isOkAt, h]
      rw [List.find?_cons_of_neg _ (by simp [hq])] at hfind
      simp [schedState, h, ih _ p b hfind hok]

theorem schedState_none_iff :
    ∀ (sched : List (String × ℕ)) (le : Option String),
      (schedState oracle sched le).1 = none ↔
        ∀ p ∈ sched, isOkAt oracle p = false := by
  intro sched
  induction sched with
  | nil => intro le; simp [schedState]
  | cons q ps ih =>
    intro le
    cases h : oracle q.1 q.2 with
    | ok b =>
      have hq : isOkAt oracle q = true := by simp [isOkAt, h]
      simp [schedState, h, hq]
    | httpErr st =>
      have hq : isOkAt oracle q = false := by simp [isOkAt, h]
      simp [schedState, h, hq, ih]
    | exc n m =>
      have hq : isOkAt oracle q = false := by simp [isOkAt, h]
      simp [schedState, h, hq, ih]

theorem schedState_last_err :
    ∀ (sched : List (String × ℕ)) (le : Option String),
      (∀ p ∈ sched, isOkAt oracle p = false) →
      (schedState oracle sched le).2.1 =
        (match sched.getLast? with
         | none => le
         | some p => errDetail p.1 (oracle p.1 p.2)) := by
  intro sched
  induction sched with
  | nil => intro le _; rfl
  | cons q ps ih =>
    intro le hall
    have hq : isOkAt oracle q = false := hall q (List.mem_cons_self _ _)
    have hps : ∀ p ∈ ps, isOkAt oracle p = false :=
      fun p hp => hall p (List.mem_cons_of_mem _ hp)
    cases h : oracle q.1 q.2 with
    | ok b => simp [isOkAt, h] at hq
    | httpErr st =>
      have := ih (@errDetail α q.1 (FetchOutcome.httpErr st)) hps
      cases hps2 : ps.getLast? with
      | none =>
        have hnil : ps = [] := List.getLast?_eq_none_iff.1 hps2
        subst hnil
        simp [schedState, h, errDetail]
      | some r =>
        have hcons : (q :: ps).getLast? = some r := by
          cases ps with
          | nil => simp at hps2
          | cons x xs => rw [List.getLast?_cons_cons]; exact hps2
        rw [hps2] at this
        simp only [schedState, h]
        rw [hcons]
        exact this
    | exc n m =>
      have := ih (@errDetail α q.1 (FetchOutcome.exc n m)) hps
      cases hps2 : ps.getLast? with
      | none =>
        have hnil : ps = [] := List.getLast?_eq_none_iff.1 hps2
        subst hnil
        simp [schedState, h, errDetail]
      | some r =>
        have hcons : (q :: ps).getLast? = some r := by
          cases ps with
          | nil => simp at hps2
          | cons x xs => rw [List.getLast?_cons_cons]; exact hps2
        rw [hps2] at this
        simp only [schedState, h]
        rw [hcons]
        exact this

end RetryLemmas

/-- C4: the retry loop consults the mirrors in priority order with at most
`max_attempts` attempts each (the issued calls are a prefix of the
schedule), sleeps `2 ^ attempt` seconds after exactly the failed calls,
returns the JSON body of the first schedule entry answering HTTP 200, and
raises the fatal `Overpass failed after retries` error — carrying the last
observed mirror/error detail — exactly when every mirror/attempt
combination failed. -/
theorem overpass_retry_correct {α : Type} (oracle : String → ℕ → FetchOutcome α)
    (endpoints : List String) (max_attempts : ℕ) :
    (∃ t, (overpass_post_with_retries oracle endpoints max_attempts).2.1 ++ t =
        retrySchedule endpoints max_attempts) ∧
    ((overpass_post_with_retries oracle endpoints max_attempts).2.2 =
      ((overpass_post_with_retries oracle endpoints max_attempts).2.1.filter
        (fun p => !(isOkAt oracle p))).map fun p => 2 ^ p.2) ∧
    (∀ (p : String × ℕ) (b : α),
      (retrySchedule endpoints max_attempts).find? (isOkAt oracle) = some p →
      oracle p.1 p.2 = .ok b →
      (overpass_post_with_retries oracle endpoints max_attempts).1 = .ok b) ∧
    ((∀ p ∈ retrySchedule endpoints max_attempts, isOkAt oracle p = false) ↔
      (overpass_post_with_retries oracle endpoints max_attempts).1 =
        .error ("Overpass failed after retries. Last error: " ++
          pyOptStr (lastDetail oracle (retrySchedule endpoints max_attempts)))) := by
  have hrun : endpointRun oracle endpoints ((List.range max_attempts).map (· + 1)) none =
      schedState oracle (retrySchedule endpoints max_attempts) none :=
    endpointRun_eq_schedState oracle endpoints _ none
  refine ⟨?_, ?_, ?_, ?_⟩
  · simp only [overpass_post_with_retries, hrun]
    exact schedState_calls_prefix oracle _ none
  · simp only [overpass_post_with_retries, hrun]
    exact schedState_sleeps oracle _ none
  · intro p b hfind hok
    simp only [overpass_post_with_retries, hrun]
    rw [schedState_first_ok oracle _ none p b hfind hok]
  · constructor
    · intro hall
      simp only [overpass_post_with_retries, hrun]
      rw [(schedState_none_iff oracle _ none).2 hall,
        schedState_last_err oracle _ none hall]
      rfl
    · intro herr
      simp only [overpass_post_with_retries, hrun] at herr
      rw [← schedState_none_iff oracle (retrySchedule endpoints max_attempts) none]
      cases hres : (schedState oracle (retrySchedule endpoints max_attempts) none).1 with
      | none => rfl
      | some b => rw [hres] at herr; exact absurd herr (by simp)

/-- Witness for C4: the spec's example — mirror 1 always fails with HTTP
500, mirror 2 answers 200 — still yields the body, after four attempts on
mirror 1 and one on mirror 2 with sleeps 2, 4, 8, 16. -/
theorem overpass_retry_correct_witness :
    (overpass_post_with_retries
      (fun ep _ => if ep = "m1" then FetchOutcome.httpErr 500 else FetchOutcome.ok 42)
      ["m1", "m2"] 4).1 = .ok 42 :=
  (overpass_retry_correct
      (fun ep _ => if ep = "m1" then FetchOutcome.httpErr 500 else FetchOutcome.ok 42)
      ["m1", "m2"] 4).2.2.1 ("m2", 1) 42 (by decide) (by decide)

/-- Witness for C7: the source's Rawalpindi bounding box with the 3×3 grid
satisfies the hypotheses, and the tiler yields 9 tiles. -/
theorem tile_bbox_correct_witness :
    (tile_bbox RAWALPINDI_BBOX TILE_ROWS TILE_COLS).length = TILE_ROWS * TILE_COLS :=
  (tile_bbox_correct RAWALPINDI_BBOX TILE_ROWS TILE_COLS
    (by norm_num [RAWALPINDI_BBOX]) (by norm_num [RAWALPINDI_BBOX])
    (by norm_num [TILE_ROWS]) (by norm_num [TILE_COLS])).1

end RestaurantAudit
